import Mathlib

/-!
# Verification of the Two Truths and a Lie commit-reveal contract

Shallow embedding of `contracts/truth_game/src/lib.rs` (Soroban smart
contract). Soroban strings and byte arrays are modelled as `List Nat`
(byte values), addresses as `Nat`, and the host key-value storage as
function maps inside a `LedgerState` record. A Rust `panic!` aborts the
whole invocation and discards every storage write, so each contract
function is modelled as returning `Except Err (... × LedgerState)`, and
`run*` wrappers give the host-level view in which a panicking call
leaves the ledger unchanged.

The host primitive `env.crypto().sha256` is embedded as a full
executable SHA-256 over byte lists.
-/

namespace TruthGame

/-- Right rotation of a 32-bit word (a `Nat` below `2 ^ 32`). -/
def rotr32 (x n : Nat) : Nat :=
  (x >>> n ||| x <<< (32 - n)) % 2 ^ 32

/-- Big-endian 4-byte encoding of a `u32`, as in Rust `u32::to_be_bytes`. -/
def be32 (n : Nat) : List Nat :=
  [n / 2 ^ 24 % 256, n / 2 ^ 16 % 256, n / 2 ^ 8 % 256, n % 256]

/-- Big-endian 8-byte encoding of a `u64` (used for the SHA-256 length field). -/
def be64 (n : Nat) : List Nat :=
  [n / 2 ^ 56 % 256, n / 2 ^ 48 % 256, n / 2 ^ 40 % 256, n / 2 ^ 32 % 256,
   n / 2 ^ 24 % 256, n / 2 ^ 16 % 256, n / 2 ^ 8 % 256, n % 256]

/-- The 64 SHA-256 round constants (FIPS 180-4, in decimal). -/
def shaK : Array Nat :=
  #[1116352408, 1899447441, 3049323471, 3921009573, 961987163,
    1508970993, 2453635748, 2870763221, 3624381080, 310598401,
    607225278, 1426881987, 1925078388, 2162078206, 2614888103,
    3248222580, 3835390401, 4022224774, 264347078, 604807628,
    770255983, 1249150122, 1555081692, 1996064986, 2554220882,
    2821834349, 2952996808, 3210313671, 3336571891, 3584528711,
    113926993, 338241895, 666307205, 773529912, 1294757372,
    1396182291, 1695183700, 1986661051, 2177026350, 2456956037,
    2730485921, 2820302411, 3259730800, 3345764771, 3516065817,
    3600352804, 4094571909, 275423344, 430227734, 506948616,
    659060556, 883997877, 958139571, 1322822218, 1537002063,
    1747873779, 1955562222, 2024104815, 2227730452, 2361852424,
    2428436474, 2756734187, 3204031479, 3329325298]

/-- The SHA-256 initial hash value (FIPS 180-4, in decimal). -/
def shaH0 : List Nat :=
  [1779033703, 3144134277, 1013904242, 2773480762, 1359893119,
   2600822924, 528734635, 1541459225]

/-- SHA-256 padding: append `0x80`, zero bytes to 56 mod 64, then the
bit length as 8 big-endian bytes. -/
def padMessage (m : List Nat) : List Nat :=
  m ++ [0x80] ++ List.replicate ((55 + 64 - m.length % 64) % 64) 0 ++ be64 (8 * m.length)

/-- Group a byte list into big-endian 32-bit words (4 bytes per word). -/
def bytesToWords : List Nat → List Nat
  | a :: b :: c :: d :: rest => (a * 2 ^ 24 + b * 2 ^ 16 + c * 2 ^ 8 + d) :: bytesToWords rest
  | _ => []

/-- SHA-256 small sigma 0. -/
def sigma0 (x : Nat) : Nat := rotr32 x 7 ^^^ rotr32 x 18 ^^^ (x >>> 3)

/-- SHA-256 small sigma 1. -/
def sigma1 (x : Nat) : Nat := rotr32 x 17 ^^^ rotr32 x 19 ^^^ (x >>> 10)

/-- SHA-256 big sigma 0. -/
def bigSigma0 (x : Nat) : Nat := rotr32 x 2 ^^^ rotr32 x 13 ^^^ rotr32 x 22

/-- SHA-256 big sigma 1. -/
def bigSigma1 (x : Nat) : Nat := rotr32 x 6 ^^^ rotr32 x 11 ^^^ rotr32 x 25

/-- SHA-256 choice function; complement is taken within 32 bits. -/
def chFun (x y z : Nat) : Nat := (x &&& y) ^^^ ((x ^^^ 0xffffffff) &&& z)

/-- SHA-256 majority function. -/
def majFun (x y z : Nat) : Nat := (x &&& y) ^^^ (x &&& z) ^^^ (y &&& z)

/-- Extend a 16-word block to the 64-word message schedule. -/
def messageSchedule (block : List Nat) : Array Nat :=
  (List.range 48).foldl
    (fun w i =>
      w.push ((sigma1 (w.get! (i + 14)) + w.get! (i + 9) +
               sigma0 (w.get! (i + 1)) + w.get! i) % 2 ^ 32))
    block.toArray

/-- One SHA-256 round on the working variables `[a, b, c, d, e, f, g, h]`. -/
def roundStep (w : Array Nat) (st : List Nat) (i : Nat) : List Nat :=
  match st with
  | [a, b, c, d, e, f, g, h] =>
    let t1 := (h + bigSigma1 e + chFun e f g + shaK.get! i + w.get! i) % 2 ^ 32
    let t2 := (bigSigma0 a + majFun a b c) % 2 ^ 32
    [(t1 + t2) % 2 ^ 32, a, b, c, (d + t1) % 2 ^ 32, e, f, g]
  | _ => st

/-- Compress one 16-word block into the running hash state. -/
def compressBlock (hs : List Nat) (block : List Nat) : List Nat :=
  let w := messageSchedule block
  let fin := (List.range 64).foldl (roundStep w) hs
  List.zipWith (fun x y => (x + y) % 2 ^ 32) hs fin

/-- SHA-256 of a byte list, returned as the 32-byte digest.
Embeds the Soroban host primitive `env.crypto().sha256`. -/
def sha256 (m : List Nat) : List Nat :=
  let ws := bytesToWords (padMessage m)
  let fin := (List.range (ws.length / 16)).foldl
    (fun hs i => compressBlock hs ((ws.drop (16 * i)).take 16)) shaH0
  (fin.map be32).flatten

/-- The `Game` struct of the contract. `owner` is a Soroban `Address`
(modelled as `Nat`), `commit_hash` a `BytesN<32>`, `reveal_time` a `u64`
timestamp, `statements` a `Vec<String>` (each string as its byte list),
`lie_index` a `u32` and `revealed` a `bool`. -/
structure Game where
  owner : Nat
  commit_hash : List Nat
  reveal_time : Nat
  statements : List (List Nat)
  lie_index : Nat
  revealed : Bool
deriving DecidableEq

/-- The contract's storage: the `DataKey::GameCounter` instance slot
(`none` when never set, read back with default 0), the
`DataKey::Games(id)` persistent slots and the
`DataKey::Guesses(game_id, guesser)` persistent slots. -/
@[ext]
structure LedgerState where
  gameCounter : Option Nat
  games : Nat → Option Game
  guesses : Nat → Nat → Option Nat

/-- The ledger before any call: no key was ever set. -/
def initialState : LedgerState :=
  { gameCounter := none, games := fun _ => none, guesses := fun _ _ => none }

/-- The contract's abort conditions, one per `panic!` site.
`CounterOverflow` models the arithmetic-overflow abort of
`counter += 1` on `u32` when the counter holds `2 ^ 32 - 1`. -/
inductive Err where
  | NotFound
  | NotOwner
  | AlreadyRevealed
  | HashMismatch
  | CounterOverflow
deriving DecidableEq

/-- `env.storage().persistent().set(&DataKey::Games(id), &g)`. -/
def setGame (id : Nat) (g : Game) (s : LedgerState) : LedgerState :=
  { s with games := fun k => if k = id then some g else s.games k }

/-- `env.storage().persistent().set(&DataKey::Guesses(game_id, guesser), &i)`. -/
def setGuess (game_id guesser i : Nat) (s : LedgerState) : LedgerState :=
  { s with guesses := fun k a =>
      if k = game_id ∧ a = guesser then some i else s.guesses k a }

/-- `env.storage().instance().set(&DataKey::GameCounter, &c)`. -/
def setCounter (c : Nat) (s : LedgerState) : LedgerState :=
  { s with gameCounter := some c }

/-- The `Game` struct literal built in `commit`: the given owner and hash,
`reveal_time = timestamp + 86400` (24-hour window), empty statements,
lie index 0, not revealed. -/
def newGame (timestamp owner : Nat) (hash : List Nat) : Game :=
  { owner := owner
    commit_hash := hash
    reveal_time := timestamp + 86400
    statements := []
    lie_index := 0
    revealed := false }

/-- `commit(env, owner, hash)`: reads the counter (default 0), increments
it, stores a fresh unrevealed `Game` under the new id, stores the counter,
and returns the new id. `timestamp` stands for `env.ledger().timestamp()`.
The counter is a `u32`, so the increment aborts (Rust overflow check)
instead of producing `2 ^ 32`; an abort performs no storage write. -/
def commit (timestamp owner : Nat) (hash : List Nat) (s : LedgerState) :
    Except Err (Nat × LedgerState) :=
  let counter := s.gameCounter.getD 0
  if counter + 1 < 2 ^ 32 then
    let counter := counter + 1
    .ok (counter,
      setCounter counter (setGame counter (newGame timestamp owner hash) s))
  else
    .error .CounterOverflow

/-- `guess(env, guesser, game_id, guessed_index)`: panics with
"Game does not exist" when `Games(game_id)` is absent, otherwise
stores `guessed_index` under `Guesses(game_id, guesser)`, overwriting
any previous value. -/
def guess (guesser game_id guessed_index : Nat) (s : LedgerState) :
    Except Err LedgerState :=
  if (s.games game_id).isSome then
    .ok (setGuess game_id guesser guessed_index s)
  else
    .error .NotFound

/-- `get_game(env, game_id)`: the stored game, or a "Game not found" panic. -/
def get_game (game_id : Nat) (s : LedgerState) : Except Err Game :=
  match s.games game_id with
  | some g => .ok g
  | none => .error .NotFound

/-- `get_guess(env, game_id, guesser)`: the stored guess, absent is not an error. -/
def get_guess (game_id guesser : Nat) (s : LedgerState) : Option Nat :=
  s.guesses game_id guesser

/-- `get_game_count(env)`: the counter, defaulting to 0. -/
def get_game_count (s : LedgerState) : Nat :=
  s.gameCounter.getD 0

/-- The byte sequence the contract hashes in `reveal`: the bytes of each
statement concatenated in order with no separators, then the 4-byte
big-endian `lie_index`, then the salt bytes. -/
def revealBytes (statements : List (List Nat)) (lie_index : Nat) (salt : List Nat) :
    List Nat :=
  statements.flatten ++ be32 lie_index ++ salt

/-- `reveal(env, owner, game_id, statements, lie_index, salt)`: loads the
game via `get_game` (NotFound panic when absent), checks the caller is
the stored owner, checks the game is unrevealed, recomputes the SHA-256
of `revealBytes` and compares it with `commit_hash`; on match stores the
game back with the supplied statements and lie index and `revealed = true`.
An error aborts the call with no storage write. -/
def reveal (owner game_id : Nat) (statements : List (List Nat)) (lie_index : Nat)
    (salt : List Nat) (s : LedgerState) : Except Err LedgerState :=
  match get_game game_id s with
  | .error e => .error e
  | .ok game =>
    if game.owner ≠ owner then
      .error .NotOwner
    else if game.revealed then
      .error .AlreadyRevealed
    else
      let calculated_hash := sha256 (revealBytes statements lie_index salt)
      if calculated_hash ≠ game.commit_hash then
        .error .HashMismatch
      else
        .ok (setGame game_id
          { game with
            statements := statements
            lie_index := lie_index
            revealed := true } s)

/-- Host-level view of `commit`: a panic aborts the invocation and every
storage write is discarded, so the ledger is returned unchanged together
with the abort reason. -/
def runCommit (timestamp owner : Nat) (hash : List Nat) (s : LedgerState) :
    LedgerState × Option Err :=
  match commit timestamp owner hash s with
  | .ok (_, s') => (s', none)
  | .error e => (s, some e)

/-- Host-level view of `guess`: on panic the ledger is unchanged. -/
def runGuess (guesser game_id guessed_index : Nat) (s : LedgerState) :
    LedgerState × Option Err :=
  match guess guesser game_id guessed_index s with
  | .ok s' => (s', none)
  | .error e => (s, some e)

/-- Host-level view of `reveal`: on panic the ledger is unchanged. -/
def runReveal (owner game_id : Nat) (statements : List (List Nat)) (lie_index : Nat)
    (salt : List Nat) (s : LedgerState) : LedgerState × Option Err :=
  match reveal owner game_id statements lie_index salt s with
  | .ok s' => (s', none)
  | .error e => (s, some e)

/-- One invocation of any state-mutating entry point of the contract. -/
inductive Step : LedgerState → LedgerState → Prop where
  | commitStep (t o : Nat) (h : List Nat) (s : LedgerState) :
      Step s (runCommit t o h s).1
  | guessStep (g id i : Nat) (s : LedgerState) :
      Step s (runGuess g id i s).1
  | revealStep (o id : Nat) (st : List (List Nat)) (li : Nat) (sa : List Nat)
      (s : LedgerState) :
      Step s (runReveal o id st li sa s).1

/-- A ledger state the contract can actually be in: reachable from the
never-touched ledger by some sequence of invocations. -/
def Reachable (s : LedgerState) : Prop :=
  Relation.ReflTransGen Step initialState s

/-- No game is stored above the current counter value. This holds in every
reachable state and is what makes a fresh `commit` unable to clobber an
existing game. -/
def CounterBound (s : LedgerState) : Prop :=
  ∀ k, get_game_count s < k → s.games k = none

/-- The per-game invariant the code actually maintains: an unrevealed game
has the empty statements list, and a revealed game's `commit_hash` is the
SHA-256 of the serialization of its stored statements and lie index with
the salt that was supplied at reveal. (The code never checks that the
statements list has 3 entries.) -/
def GameInv (g : Game) : Prop :=
  (g.revealed = false → g.statements = []) ∧
  (g.revealed = true →
    ∃ salt, g.commit_hash = sha256 (revealBytes g.statements g.lie_index salt))

/-- Run a sequence of `commit` calls, each a `(timestamp, owner, hash)`
triple, collecting the returned ids; the first abort stops the run. -/
def runCommits : List (Nat × Nat × List Nat) → LedgerState →
    List Nat × LedgerState × Option Err
  | [], s => ([], s, none)
  | (t, o, h) :: rest, s =>
    match commit t o h s with
    | .ok (id, s') =>
      let r := runCommits rest s'
      (id :: r.1, r.2)
    | .error e => ([], s, some e)

/-- Overwrite the stored `reveal_time` of game `id` — a state perturbation
used to express that `reveal` never consults `reveal_time` (or any clock). -/
def setRevealTime (s : LedgerState) (id rt : Nat) : LedgerState :=
  { s with games := fun k =>
      if k = id then (s.games k).map (fun g => { g with reveal_time := rt })
      else s.games k }

/-- A commitment to the three statements `"a" "b" "c"`, lie index 1,
salt `"d"` (as byte lists). -/
def wmHash : List Nat := sha256 (revealBytes [[97], [98], [99]] 1 [100])

/-- A freshly committed game bound to `wmHash`, owned by address 7. -/
def g1 : Game :=
  { owner := 7, commit_hash := wmHash, reveal_time := 86400,
    statements := [], lie_index := 0, revealed := false }

/-- A one-game ledger holding `g1` under id 1. -/
def ws1 : LedgerState := setCounter 1 (setGame 1 g1 initialState)

/-- `g1` after a successful reveal of its committed data. -/
def wRevealedGame : Game :=
  { g1 with statements := [[97], [98], [99]], lie_index := 1, revealed := true }

/-- A one-game ledger whose game is already revealed. -/
def ws2 : LedgerState := setCounter 1 (setGame 1 wRevealedGame initialState)

/-- A commitment whose preimage contains a single statement (not 3). -/
def oneStmtHash : List Nat := sha256 (revealBytes [[120]] 0 [121])

/-- The ledger after committing `oneStmtHash` from the initial state. -/
def cexMid : LedgerState := (runCommit 0 7 oneStmtHash initialState).1

/-- The ledger after then revealing the single-statement preimage. -/
def cexState : LedgerState := (runReveal 7 1 [[120]] 0 [121] cexMid).1

/-- The revealed single-statement game stored in `cexState`. -/
def cexGame : Game :=
  { owner := 7, commit_hash := oneStmtHash, reveal_time := 86400,
    statements := [[120]], lie_index := 0, revealed := true }

/-- Two commit calls used to exercise `runCommits`. -/
def wCalls : List (Nat × Nat × List Nat) := [(0, 5, [1]), (3, 6, [2])]

/-- The game created by the first call of `wCalls`. -/
def ng1 : Game :=
  { owner := 5, commit_hash := [1], reveal_time := 86400,
    statements := [], lie_index := 0, revealed := false }

/-- The game created by the second call of `wCalls`. -/
def ng2 : Game :=
  { owner := 6, commit_hash := [2], reveal_time := 86403,
    statements := [], lie_index := 0, revealed := false }

/-- The ledger after running `wCalls` from the initial state. -/
def wFinal : LedgerState :=
  setCounter 2 (setGame 2 ng2 (setCounter 1 (setGame 1 ng1 initialState)))

theorem get_game_some (game_id : Nat) (s : LedgerState) (g : Game)
    (h : s.games game_id = some g) : get_game game_id s = .ok g := by
  simp [get_game, h]

theorem get_game_none (game_id : Nat) (s : LedgerState)
    (h : s.games game_id = none) : get_game game_id s = .error .NotFound := by
  simp [get_game, h]

theorem reveal_ok (s : LedgerState) (g : Game) (owner game_id : Nat)
    (statements : List (List Nat)) (lie_index : Nat) (salt : List Nat)
    (hg : s.games game_id = some g) (how : g.owner = owner)
    (hur : g.revealed = false)
    (hh : sha256 (revealBytes statements lie_index salt) = g.commit_hash) :
    reveal owner game_id statements lie_index salt s =
      .ok (setGame game_id
        { g with statements := statements, lie_index := lie_index,
                 revealed := true } s) := by
  simp [reveal, get_game_some game_id s g hg, how, hur, hh]

/-- C1: `reveal`, called by the stored owner on an existing unrevealed game,
succeeds exactly when the SHA-256 of the statements' bytes concatenated in
order, the 4-byte big-endian lie index and the salt bytes equals the stored
`commit_hash`; on a mismatch it aborts with `HashMismatch` and the ledger —
in particular the stored game — is unchanged. -/
theorem reveal_binding (s : LedgerState) (g : Game) (owner game_id : Nat)
    (statements : List (List Nat)) (lie_index : Nat) (salt : List Nat)
    (hg : s.games game_id = some g) (how : g.owner = owner)
    (hur : g.revealed = false) :
    (sha256 (revealBytes statements lie_index salt) = g.commit_hash →
      reveal owner game_id statements lie_index salt s =
        .ok (setGame game_id
          { g with statements := statements, lie_index := lie_index,
                   revealed := true } s)) ∧
    (sha256 (revealBytes statements lie_index salt) ≠ g.commit_hash →
      runReveal owner game_id statements lie_index salt s =
        (s, some .HashMismatch)) := by
  constructor <;> intro hh <;>
    simp [runReveal, reveal, get_game_some game_id s g hg, how, hur, hh]

/-- C3: for an existing game, a `reveal` call whose `owner` argument differs
from the stored owner aborts with `NotOwner` and leaves the ledger unchanged,
whatever the statements, lie index and salt are. -/
theorem reveal_not_owner (s : LedgerState) (g : Game) (caller game_id : Nat)
    (statements : List (List Nat)) (lie_index : Nat) (salt : List Nat)
    (hg : s.games game_id = some g) (hne : g.owner ≠ caller) :
    runReveal caller game_id statements lie_index salt s = (s, some .NotOwner) := by
  simp [runReveal, reveal, get_game_some game_id s g hg, hne]

/-- C7: two `guess` calls by the same guesser for the same existing game
leave only the second index readable through `get_guess`, and the resulting
ledger is identical to the one produced by the second call alone — no trace
of the first guess remains, for arbitrary index values. -/
theorem guess_overwrite (guesser game_id i1 i2 : Nat) (s : LedgerState)
    (h : (s.games game_id).isSome = true) :
    get_guess game_id guesser
        ((runGuess guesser game_id i2 ((runGuess guesser game_id i1 s).1)).1) =
      some i2 ∧
    (runGuess guesser game_id i2 ((runGuess guesser game_id i1 s).1)).1 =
      (runGuess guesser game_id i2 s).1 := by
  constructor
  · simp [runGuess, guess, get_guess, setGuess, h]
  · simp only [runGuess, guess, setGuess, h, if_true]
    refine LedgerState.ext rfl rfl ?_
    funext k a
    by_cases hc : k = game_id ∧ a = guesser <;> simp [hc]

/-- C8: `guess` for a game id with no stored game aborts with `NotFound`
and leaves the ledger unchanged (so no guess record is written); for an
existing game it always succeeds and stores the index, whatever the index
value and whether or not the game is revealed. -/
theorem guess_not_found (guesser game_id guessed_index : Nat) (s : LedgerState) :
    (s.games game_id = none →
      runGuess guesser game_id guessed_index s = (s, some .NotFound)) ∧
    ((s.games game_id).isSome = true →
      (runGuess guesser game_id guessed_index s).2 = none ∧
      get_guess game_id guesser (runGuess guesser game_id guessed_index s).1 =
        some guessed_index) := by
  constructor <;> intro h <;> simp [runGuess, guess, get_guess, setGuess, h]

/-- C10: the order of the `reveal` checks — an absent game aborts with
`NotFound` whatever the other arguments; an existing game with a non-owner
caller aborts with `NotOwner` even when already revealed; the owner on a
revealed game aborts with `AlreadyRevealed` whatever data is supplied; and
`HashMismatch` arises only when the game exists, the caller is the owner,
the game is unrevealed, and the recomputed hash differs. -/
theorem reveal_check_order (caller game_id : Nat) (statements : List (List Nat))
    (lie_index : Nat) (salt : List Nat) (s : LedgerState) :
    (s.games game_id = none →
      runReveal caller game_id statements lie_index salt s =
        (s, some .NotFound)) ∧
    (∀ g, s.games game_id = some g → g.owner ≠ caller →
      runReveal caller game_id statements lie_index salt s =
        (s, some .NotOwner)) ∧
    (∀ g, s.games game_id = some g → g.owner = caller → g.revealed = true →
      runReveal caller game_id statements lie_index salt s =
        (s, some .AlreadyRevealed)) ∧
    ((runReveal caller game_id statements lie_index salt s).2 =
        some .HashMismatch →
      ∃ g, s.games game_id = some g ∧ g.owner = caller ∧ g.revealed = false ∧
        sha256 (revealBytes statements lie_index salt) ≠ g.commit_hash) := by
  refine ⟨?_, ?_, ?_, ?_⟩
  · intro h
    simp [runReveal, reveal, get_game_none game_id s h]
  · intro g hg hne
    simp [runReveal, reveal, get_game_some game_id s g hg, hne]
  · intro g hg how hrev
    simp [runReveal, reveal, get_game_some game_id s g hg, how, hrev]
  · intro h
    rcases hcase : s.games game_id with _ | g
    · simp [runReveal, reveal, get_game_none game_id s hcase] at h
    · refine ⟨g, rfl, ?_⟩
      by_cases how : g.owner = caller
      · by_cases hrev : g.revealed = true
        · simp [runReveal, reveal, get_game_some game_id s g hcase, how, hrev] at h
        · by_cases hh : sha256 (revealBytes statements lie_index salt) = g.commit_hash
          · simp [runReveal, reveal, get_game_some game_id s g hcase, how, hrev, hh] at h
          · exact ⟨how, by simpa using hrev, hh⟩
      · simp [runReveal, reveal, get_game_some game_id s g hcase, how] at h

theorem commit_eq (t o : Nat) (hash : List Nat) (s : LedgerState) :
    commit t o hash s =
      if get_game_count s + 1 < 2 ^ 32 then
        .ok (get_game_count s + 1,
          setCounter (get_game_count s + 1)
            (setGame (get_game_count s + 1) (newGame t o hash) s))
      else .error .CounterOverflow := rfl

theorem commit_ok (t o : Nat) (hash : List Nat) (s : LedgerState) (id : Nat)
    (s' : LedgerState) (h : commit t o hash s = .ok (id, s')) :
    id = get_game_count s + 1 ∧ get_game_count s + 1 < 2 ^ 32 ∧
      s' = setCounter (get_game_count s + 1)
        (setGame (get_game_count s + 1) (newGame t o hash) s) := by
  rw [commit_eq] at h
  split_ifs at h with hlt
  simp only [Except.ok.injEq, Prod.mk.injEq] at h
  exact ⟨h.1.symm, hlt, h.2.symm⟩

theorem runCommit_eq (t o : Nat) (hsh : List Nat) (s : LedgerState) :
    runCommit t o hsh s =
      if get_game_count s + 1 < 2 ^ 32 then
        (setCounter (get_game_count s + 1)
          (setGame (get_game_count s + 1) (newGame t o hsh) s), none)
      else (s, some .CounterOverflow) := by
  unfold runCommit
  rw [commit_eq]
  split_ifs <;> rfl

theorem runCommit_analysis (t o : Nat) (hsh : List Nat) (s : LedgerState) :
    get_game_count s ≤ get_game_count (runCommit t o hsh s).1 ∧
    ∀ id, (runCommit t o hsh s).1.games id = s.games id ∨
      (get_game_count s < id ∧ id ≤ get_game_count (runCommit t o hsh s).1 ∧
        ∃ g, (runCommit t o hsh s).1.games id = some g ∧ g.revealed = false ∧
          g.statements = []) := by
  by_cases hlt : get_game_count s + 1 < 2 ^ 32
  · have hrun : (runCommit t o hsh s).1 =
        setCounter (get_game_count s + 1)
          (setGame (get_game_count s + 1) (newGame t o hsh) s) := by
      rw [runCommit_eq, if_pos hlt]
    rw [hrun]
    constructor
    · simp [get_game_count, setCounter, setGame]
    · intro id
      by_cases hid : id = get_game_count s + 1
      · subst hid
        refine Or.inr ⟨by omega, by simp [get_game_count, setCounter, setGame],
          newGame t o hsh, by simp [setCounter, setGame], rfl, rfl⟩
      · exact Or.inl (by simp [setCounter, setGame, hid])
  · have hrun : (runCommit t o hsh s).1 = s := by
      rw [runCommit_eq, if_neg hlt]
    rw [hrun]
    exact ⟨le_refl _, fun id => Or.inl rfl⟩

theorem runGuess_analysis (g gid i : Nat) (s : LedgerState) :
    (runGuess g gid i s).1.games = s.games ∧
    get_game_count (runGuess g gid i s).1 = get_game_count s := by
  by_cases hg : (s.games gid).isSome <;>
    simp [runGuess, guess, hg, setGuess, get_game_count]

theorem runReveal_analysis (o rid : Nat) (stmts : List (List Nat)) (li : Nat)
    (salt : List Nat) (s : LedgerState) :
    get_game_count (runReveal o rid stmts li salt s).1 = get_game_count s ∧
    ∀ id, (runReveal o rid stmts li salt s).1.games id = s.games id ∨
      (∃ g, s.games id = some g ∧ g.revealed = false ∧
        sha256 (revealBytes stmts li salt) = g.commit_hash ∧
        (runReveal o rid stmts li salt s).1.games id =
          some { g with statements := stmts, lie_index := li,
                        revealed := true }) := by
  rcases hc : s.games rid with _ | game
  · have hrun : (runReveal o rid stmts li salt s).1 = s := by
      simp [runReveal, reveal, get_game_none rid s hc]
    rw [hrun]
    exact ⟨rfl, fun id => Or.inl rfl⟩
  · by_cases how : game.owner = o
    · by_cases hrev : game.revealed
      · have hrun : (runReveal o rid stmts li salt s).1 = s := by
          simp [runReveal, reveal, get_game_some rid s game hc, how, hrev]
        rw [hrun]
        exact ⟨rfl, fun id => Or.inl rfl⟩
      · by_cases hh : sha256 (revealBytes stmts li salt) = game.commit_hash
        · have hrun : (runReveal o rid stmts li salt s).1 =
              setGame rid
                { game with statements := stmts, lie_index := li,
                            revealed := true } s := by
            simp [runReveal, reveal, get_game_some rid s game hc, how, hrev, hh]
          rw [hrun]
          constructor
          · simp [setGame, get_game_count]
          · intro id
            by_cases hid : id = rid
            · subst hid
              exact Or.inr ⟨game, hc, by simpa using hrev, hh,
                by simp [setGame]⟩
            · exact Or.inl (by simp [setGame, hid])
        · have hrun : (runReveal o rid stmts li salt s).1 = s := by
            simp [runReveal, reveal, get_game_some rid s game hc, how, hrev, hh]
          rw [hrun]
          exact ⟨rfl, fun id => Or.inl rfl⟩
    · have hrun : (runReveal o rid stmts li salt s).1 = s := by
        simp [runReveal, reveal, get_game_some rid s game hc, how]
      rw [hrun]
      exact ⟨rfl, fun id => Or.inl rfl⟩

/-- What a single invocation can do to the counter and to any games slot:
either the slot is untouched, or `commit` put a brand-new empty unrevealed
game into a slot strictly above the old counter, or `reveal` flipped an
existing unrevealed game whose hash check passed to its revealed form. -/
theorem step_analysis (s s' : LedgerState) (hstep : Step s s') :
    get_game_count s ≤ get_game_count s' ∧
    ∀ id, s'.games id = s.games id ∨
      (get_game_count s < id ∧ id ≤ get_game_count s' ∧
        ∃ g, s'.games id = some g ∧ g.revealed = false ∧ g.statements = []) ∨
      (∃ g stmts li salt, s.games id = some g ∧ g.revealed = false ∧
        sha256 (revealBytes stmts li salt) = g.commit_hash ∧
        s'.games id =
          some { g with statements := stmts, lie_index := li,
                        revealed := true }) := by
  cases hstep with
  | commitStep t o hsh =>
    obtain ⟨h1, h2⟩ := runCommit_analysis t o hsh s
    refine ⟨h1, fun id => ?_⟩
    rcases h2 id with ha | hb
    · exact Or.inl ha
    · exact Or.inr (Or.inl hb)
  | guessStep g gid i =>
    obtain ⟨h1, h2⟩ := runGuess_analysis g gid i s
    exact ⟨le_of_eq h2.symm, fun id => Or.inl (by rw [h1])⟩
  | revealStep o rid stmts li salt =>
    obtain ⟨h1, h2⟩ := runReveal_analysis o rid stmts li salt s
    refine ⟨le_of_eq h1.symm, fun id => ?_⟩
    rcases h2 id with ha | ⟨g, hg, hrev, hh, hupd⟩
    · exact Or.inl ha
    · exact Or.inr (Or.inr ⟨g, stmts, li, salt, hg, hrev, hh, hupd⟩)

theorem step_counterBound (s s' : LedgerState) (hstep : Step s s')
    (hcb : CounterBound s) : CounterBound s' := by
  obtain ⟨hmono, hcases⟩ := step_analysis s s' hstep
  intro k hk
  rcases hcases k with h1 | ⟨_, h2, _⟩ | ⟨g, _, _, _, hsg, _, _, _⟩
  · rw [h1]
    exact hcb k (by omega)
  · omega
  · exact absurd hsg (by rw [hcb k (by omega)]; simp)

theorem step_gameInv (s s' : LedgerState) (hstep : Step s s')
    (hinv : ∀ id g, s.games id = some g → GameInv g) :
    ∀ id g, s'.games id = some g → GameInv g := by
  intro id g hg
  obtain ⟨_, hcases⟩ := step_analysis s s' hstep
  rcases hcases id with h1 | ⟨_, _, g', hg', hrev, hst⟩ |
    ⟨g', stmts, li, salt, hsg, hrev, hhash, hupd⟩
  · exact hinv id g (h1 ▸ hg)
  · rw [hg] at hg'
    injection hg' with he
    subst he
    exact ⟨fun _ => hst, fun htrue => absurd htrue (by simp [hrev])⟩
  · rw [hupd] at hg
    injection hg with he
    subst he
    refine ⟨fun hfalse => by simp at hfalse, fun _ => ⟨salt, ?_⟩⟩
    simpa using hhash.symm

/-- C2: once a game is revealed, in the current state and in every state
reachable from it by further invocations the stored game record — its
`revealed` flag, statements and lie index included — is exactly the same,
and a `reveal` call by the owner, with any data whatsoever (the originally
committed data included), aborts with `AlreadyRevealed` leaving the ledger
unchanged. -/
theorem reveal_terminal (s : LedgerState) (game_id : Nat) (g : Game)
    (hcb : CounterBound s) (hg : s.games game_id = some g)
    (hrev : g.revealed = true) :
    ∀ s', Relation.ReflTransGen Step s s' →
      s'.games game_id = some g ∧
      ∀ statements lie_index salt,
        runReveal g.owner game_id statements lie_index salt s' =
          (s', some .AlreadyRevealed) := by
  have key : ∀ s', Relation.ReflTransGen Step s s' →
      CounterBound s' ∧ s'.games game_id = some g := by
    intro s' hreach
    induction hreach with
    | refl => exact ⟨hcb, hg⟩
    | tail hab hbc ih =>
      obtain ⟨ihcb, ihg⟩ := ih
      refine ⟨step_counterBound _ _ hbc ihcb, ?_⟩
      obtain ⟨_, hcases⟩ := step_analysis _ _ hbc
      rcases hcases game_id with h1 | ⟨hlt, _, _⟩ |
        ⟨g', _, _, _, hsg, hrev', _, _⟩
      · rw [h1, ihg]
      · rw [ihcb game_id hlt] at ihg
        exact absurd ihg (by simp)
      · rw [ihg] at hsg
        injection hsg with he
        rw [← he] at hrev'
        rw [hrev] at hrev'
        exact absurd hrev' (by simp)
  intro s' hreach
  obtain ⟨_, hg'⟩ := key s' hreach
  refine ⟨hg', fun statements lie_index salt => ?_⟩
  simp [runReveal, reveal, get_game_some game_id s' g hg', hrev]

/-- C4 (amended): in every reachable ledger state, an unrevealed game has
the empty statements list, and a revealed game's `commit_hash` equals the
SHA-256 of the serialization of its stored statements and lie index with
the salt supplied at reveal — but the statements list of a revealed game
need not have exactly 3 entries, since `reveal` never checks the count. -/
theorem game_invariant (s : LedgerState) (hs : Reachable s) :
    ∀ id g, s.games id = some g → GameInv g := by
  induction hs with
  | refl =>
    intro id g hg
    exact absurd hg (by simp [initialState])
  | tail hab hbc ih => exact step_gameInv _ _ hbc ih

set_option maxRecDepth 100000 in
/-- C4 counterexample: from the empty ledger, committing the hash of a
single-statement preimage and then revealing it yields a reachable state
whose game is revealed with a statements list of length 1, not 3 — the
claimed invariant "revealed implies exactly 3 statements" fails on the
code, which never checks the statement count. -/
theorem game_invariant_cex :
    Reachable cexState ∧
    (cexState.games 1).map Game.revealed = some true ∧
    (cexState.games 1).map (fun g => g.statements.length) = some 1 := by
  refine ⟨?_, ?_, ?_⟩
  · exact Relation.ReflTransGen.tail
      (Relation.ReflTransGen.single (Step.commitStep 0 7 oneStmtHash initialState))
      (Step.revealStep 7 1 [[120]] 0 [121] cexMid)
  · decide
  · decide

theorem runCommits_ok (calls : List (Nat × Nat × List Nat)) (s : LedgerState)
    (ids : List Nat) (s' : LedgerState)
    (h : runCommits calls s = (ids, s', none)) :
    ids = List.range' (get_game_count s + 1) calls.length ∧
    get_game_count s' = get_game_count s + calls.length ∧
    (calls = [] ∨ get_game_count s + calls.length < 2 ^ 32) := by
  induction calls generalizing s ids with
  | nil =>
    simp only [runCommits, Prod.mk.injEq] at h
    obtain ⟨h1, h2, -⟩ := h
    subst h2
    exact ⟨by simp [← h1], by simp, Or.inl rfl⟩
  | cons c rest ih =>
    obtain ⟨t, o, hsh⟩ := c
    simp only [runCommits] at h
    rcases hc : commit t o hsh s with e | p
    · rw [hc] at h
      simp at h
    · obtain ⟨id, s2⟩ := p
      rw [hc] at h
      simp only [Prod.mk.injEq] at h
      obtain ⟨hid, hrest⟩ := h
      obtain ⟨hid', hlt, hs2⟩ := commit_ok t o hsh s id s2 hc
      have hrest' : runCommits rest s2 =
          ((runCommits rest s2).1, s', none) := by
        rw [← hrest]
      obtain ⟨ha, hb, hcnt⟩ := ih s2 (runCommits rest s2).1 hrest'
      have hc2 : get_game_count s2 = get_game_count s + 1 := by
        rw [hs2]
        simp [setCounter, get_game_count]
      refine ⟨?_, ?_, Or.inr ?_⟩
      · rw [← hid, hid', ha, hc2, List.length_cons, List.range'_succ]
      · rw [hb, hc2, List.length_cons]
        omega
      · rcases hcnt with hnil | hbound
        · subst hnil
          simpa using hlt
        · rw [hc2] at hbound
          simp only [List.length_cons]
          omega

/-- C5: starting from the empty ledger, any sequence of successful
`commit` calls returns exactly the ids 1, 2, 3, … in order, and
`get_game_count` then equals the number of creations (0 before any);
a successful `commit` returns and stores exactly the old counter plus 1
(and can only succeed while the `u32` counter does not overflow), and
neither `guess` nor `reveal` ever changes the counter. -/
theorem create_game_ids (calls : List (Nat × Nat × List Nat)) (ids : List Nat)
    (s' : LedgerState) (h : runCommits calls initialState = (ids, s', none)) :
    ids = List.range' 1 calls.length ∧
    get_game_count s' = calls.length ∧
    calls.length < 2 ^ 32 ∧
    get_game_count initialState = 0 ∧
    (∀ t o hash s id s2, commit t o hash s = .ok (id, s2) →
      id = get_game_count s + 1 ∧ get_game_count s2 = get_game_count s + 1 ∧
      get_game_count s + 1 < 2 ^ 32) ∧
    (∀ g gid i s, get_game_count (runGuess g gid i s).1 = get_game_count s) ∧
    (∀ o gid st li sa s,
      get_game_count (runReveal o gid st li sa s).1 = get_game_count s) := by
  obtain ⟨ha, hb, hcnt⟩ := runCommits_ok calls initialState ids s' h
  have hz : get_game_count initialState = 0 := rfl
  refine ⟨by simpa [hz] using ha, by simpa [hz] using hb, ?_, hz, ?_, ?_, ?_⟩
  · rcases hcnt with hnil | hbound
    · simp [hnil]
    · rw [hz] at hbound
      omega
  · intro t o hash s id s2 hc
    obtain ⟨h1, h2, h3⟩ := commit_ok t o hash s id s2 hc
    refine ⟨h1, ?_, h2⟩
    rw [h3]
    simp [setCounter, get_game_count]
  · intro g gid i s
    exact (runGuess_analysis g gid i s).2
  · intro o gid st li sa s
    exact (runReveal_analysis o gid st li sa s).1

/-- C6: a successful `commit` stores `reveal_time = timestamp + 86400`;
`reveal` takes no clock input in the embedding because the source never
reads `env.ledger()` in `reveal`, a reveal satisfying the owner,
not-yet-revealed and hash preconditions always succeeds with no temporal
precondition, and replacing the stored `reveal_time` by any value changes
no `reveal` outcome. -/
theorem reveal_time_not_enforced :
    (∀ t o hash s id s2, commit t o hash s = .ok (id, s2) →
      (s2.games id).map Game.reveal_time = some (t + 86400)) ∧
    (∀ owner game_id stmts li salt s g,
      s.games game_id = some g → g.owner = owner → g.revealed = false →
      sha256 (revealBytes stmts li salt) = g.commit_hash →
      (runReveal owner game_id stmts li salt s).2 = none) ∧
    (∀ owner game_id stmts li salt s rt,
      (runReveal owner game_id stmts li salt (setRevealTime s game_id rt)).2 =
        (runReveal owner game_id stmts li salt s).2) := by
  refine ⟨?_, ?_, ?_⟩
  · intro t o hash s id s2 hc
    obtain ⟨hid, hlt, hs2⟩ := commit_ok t o hash s id s2 hc
    subst hid
    rw [hs2]
    simp [setCounter, setGame, newGame]
  · intro owner game_id stmts li salt s g hg how hrev hh
    simp [runReveal, reveal, get_game_some game_id s g hg, how, hrev, hh]
  · intro owner game_id stmts li salt s rt
    rcases hc : s.games game_id with _ | g
    · have hc' : (setRevealTime s game_id rt).games game_id = none := by
        simp [setRevealTime, hc]
      simp [runReveal, reveal, get_game_none game_id s hc,
        get_game_none game_id _ hc']
    · have hc' : (setRevealTime s game_id rt).games game_id =
          some { g with reveal_time := rt } := by
        simp [setRevealTime, hc]
      by_cases how : g.owner = owner
      · by_cases hrev : g.revealed
        · simp [runReveal, reveal, get_game_some game_id s g hc,
            get_game_some game_id _ _ hc', how, hrev]
        · by_cases hh : sha256 (revealBytes stmts li salt) = g.commit_hash
          · simp [runReveal, reveal, get_game_some game_id s g hc,
              get_game_some game_id _ _ hc', how, hrev, hh]
          · simp [runReveal, reveal, get_game_some game_id s g hc,
              get_game_some game_id _ _ hc', how, hrev, hh]
      · simp [runReveal, reveal, get_game_some game_id s g hc,
          get_game_some game_id _ _ hc', how]

/-- C9: a successful `reveal` replaces only the `statements`, `lie_index`
and `revealed` fields of the targeted game (keeping its `owner`,
`commit_hash` and `reveal_time`), and leaves every other game, every guess
record and the game counter exactly as they were. -/
theorem reveal_frame (owner game_id : Nat) (stmts : List (List Nat)) (li : Nat)
    (salt : List Nat) (s s' : LedgerState)
    (h : reveal owner game_id stmts li salt s = .ok s') :
    (∃ g, s.games game_id = some g ∧
      s'.games game_id =
        some { g with statements := stmts, lie_index := li, revealed := true }) ∧
    (∀ k, k ≠ game_id → s'.games k = s.games k) ∧
    s'.guesses = s.guesses ∧ s'.gameCounter = s.gameCounter := by
  rcases hc : s.games game_id with _ | g
  · have he : reveal owner game_id stmts li salt s = .error .NotFound := by
      simp [reveal, get_game_none game_id s hc]
    rw [he] at h
    exact absurd h (by simp)
  · by_cases how : g.owner = owner
    · by_cases hrev : g.revealed
      · have he : reveal owner game_id stmts li salt s =
            .error .AlreadyRevealed := by
          simp [reveal, get_game_some game_id s g hc, how, hrev]
        rw [he] at h
        exact absurd h (by simp)
      · by_cases hh : sha256 (revealBytes stmts li salt) = g.commit_hash
        · have he : reveal owner game_id stmts li salt s =
              .ok (setGame game_id
                { g with statements := stmts, lie_index := li,
                         revealed := true } s) := by
            simp [reveal, get_game_some game_id s g hc, how, hrev, hh]
          rw [he] at h
          injection h with h'
          subst h'
          exact ⟨⟨g, rfl, by simp [setGame]⟩, fun k hk => by simp [setGame, hk],
            rfl, rfl⟩
        · have he : reveal owner game_id stmts li salt s =
              .error .HashMismatch := by
            simp [reveal, get_game_some game_id s g hc, how, hrev, hh]
          rw [he] at h
          exact absurd h (by simp)
    · have he : reveal owner game_id stmts li salt s = .error .NotOwner := by
        simp [reveal, get_game_some game_id s g hc, how]
      rw [he] at h
      exact absurd h (by simp)

set_option maxRecDepth 400000 in
/-- Witness for C1 on a one-game ledger: the committed data reveals
successfully, and a wrong salt aborts with `HashMismatch` leaving the
ledger unchanged. -/
theorem reveal_binding_witness :
    reveal 7 1 [[97], [98], [99]] 1 [100] ws1 =
      .ok (setGame 1
        { g1 with statements := [[97], [98], [99]], lie_index := 1,
                  revealed := true } ws1) ∧
    runReveal 7 1 [[97], [98], [99]] 1 [101] ws1 = (ws1, some .HashMismatch) :=
  ⟨(reveal_binding ws1 g1 7 1 [[97], [98], [99]] 1 [100] rfl rfl rfl).1 rfl,
   (reveal_binding ws1 g1 7 1 [[97], [98], [99]] 1 [101] rfl rfl rfl).2
     (by decide)⟩

/-- Witness for C2 on a ledger whose game 1 is revealed: the game record
persists and an owner `reveal` with the correct data aborts with
`AlreadyRevealed`. -/
theorem reveal_terminal_witness :
    ws2.games 1 = some wRevealedGame ∧
    runReveal 7 1 [[97], [98], [99]] 1 [100] ws2 =
      (ws2, some .AlreadyRevealed) := by
  have hcb : CounterBound ws2 := by
    intro k hk
    have h1 : 1 < k := hk
    have hk1 : k ≠ 1 := by omega
    simp [ws2, setCounter, setGame, initialState, hk1]
  have h := reveal_terminal ws2 1 wRevealedGame hcb rfl rfl ws2
    Relation.ReflTransGen.refl
  exact ⟨h.1, h.2 [[97], [98], [99]] 1 [100]⟩

/-- Witness for C3: a non-owner caller gets `NotOwner` even though it
supplies exactly the committed data, whose hash matches. -/
theorem reveal_not_owner_witness :
    runReveal 8 1 [[97], [98], [99]] 1 [100] ws1 = (ws1, some .NotOwner) :=
  reveal_not_owner ws1 g1 8 1 [[97], [98], [99]] 1 [100] rfl (by decide)

set_option maxRecDepth 400000 in
/-- Witness for C4 (amended) at the reachable single-statement state. -/
theorem game_invariant_witness : GameInv cexGame :=
  game_invariant cexState
    (Relation.ReflTransGen.tail
      (Relation.ReflTransGen.single
        (Step.commitStep 0 7 oneStmtHash initialState))
      (Step.revealStep 7 1 [[120]] 0 [121] cexMid))
    1 cexGame (by decide)

/-- Witness for C5: two successful commits from the empty ledger return
ids 1 and 2 and leave the count at 2. -/
theorem create_game_ids_witness :
    [1, 2] = List.range' 1 wCalls.length ∧ get_game_count wFinal = 2 :=
  ⟨(create_game_ids wCalls [1, 2] wFinal rfl).1,
   (create_game_ids wCalls [1, 2] wFinal rfl).2.1⟩

/-- Witness for C6: the stored `reveal_time` is creation time + 86400, a
correct reveal succeeds (no clock precondition), and overwriting the
stored `reveal_time` with 0 changes no reveal outcome. -/
theorem reveal_time_not_enforced_witness :
    (wFinal.games 2).map Game.reveal_time = some (3 + 86400) ∧
    (runReveal 7 1 [[97], [98], [99]] 1 [100] ws1).2 = none ∧
    (runReveal 7 1 [[97], [98], [99]] 1 [100] (setRevealTime ws1 1 0)).2 =
      (runReveal 7 1 [[97], [98], [99]] 1 [100] ws1).2 := by
  refine ⟨?_, ?_, ?_⟩
  · exact reveal_time_not_enforced.1 3 6 [2]
      (setCounter 1 (setGame 1 ng1 initialState)) 2 wFinal rfl
  · exact reveal_time_not_enforced.2.1 7 1 [[97], [98], [99]] 1 [100] ws1 g1
      rfl rfl rfl rfl
  · exact reveal_time_not_enforced.2.2 7 1 [[97], [98], [99]] 1 [100] ws1 0

/-- Witness for C7: guessing 9 then 2 leaves only 2 retrievable, and the
resulting ledger equals the one where only 2 was ever guessed. -/
theorem guess_overwrite_witness :
    get_guess 1 4 ((runGuess 4 1 2 ((runGuess 4 1 9 ws1).1)).1) = some 2 ∧
    (runGuess 4 1 2 ((runGuess 4 1 9 ws1).1)).1 = (runGuess 4 1 2 ws1).1 :=
  guess_overwrite 4 1 9 2 ws1 rfl

/-- Witness for C8: guessing on the never-created game 99 aborts with
`NotFound` leaving the ledger untouched, while guessing the out-of-range
index 7 on a revealed game succeeds and stores it. -/
theorem guess_not_found_witness :
    runGuess 4 99 5 initialState = (initialState, some .NotFound) ∧
    (runGuess 4 1 7 ws2).2 = none ∧
    get_guess 1 4 (runGuess 4 1 7 ws2).1 = some 7 :=
  ⟨(guess_not_found 4 99 5 initialState).1 rfl,
   ((guess_not_found 4 1 7 ws2).2 rfl).1,
   ((guess_not_found 4 1 7 ws2).2 rfl).2⟩

/-- Witness for C9 at a concrete successful reveal. -/
theorem reveal_frame_witness :
    (∃ g, ws1.games 1 = some g ∧
      (setGame 1 wRevealedGame ws1).games 1 =
        some { g with statements := [[97], [98], [99]], lie_index := 1,
                      revealed := true }) ∧
    (∀ k, k ≠ 1 → (setGame 1 wRevealedGame ws1).games k = ws1.games k) ∧
    (setGame 1 wRevealedGame ws1).guesses = ws1.guesses ∧
    (setGame 1 wRevealedGame ws1).gameCounter = ws1.gameCounter :=
  reveal_frame 7 1 [[97], [98], [99]] 1 [100] ws1 (setGame 1 wRevealedGame ws1)
    (reveal_ok ws1 g1 7 1 [[97], [98], [99]] 1 [100] rfl rfl rfl rfl)

set_option maxRecDepth 400000 in
/-- Witness for C10: each abort case at a concrete ledger, and a concrete
`HashMismatch` outcome implying the three prior checks passed. -/
theorem reveal_check_order_witness :
    runReveal 7 99 [] 0 [] initialState = (initialState, some .NotFound) ∧
    runReveal 8 1 [] 0 [] ws2 = (ws2, some .NotOwner) ∧
    runReveal 7 1 [] 0 [] ws2 = (ws2, some .AlreadyRevealed) ∧
    (∃ g, ws1.games 1 = some g ∧ g.owner = 7 ∧ g.revealed = false ∧
      sha256 (revealBytes [] 0 []) ≠ g.commit_hash) :=
  ⟨(reveal_check_order 7 99 [] 0 [] initialState).1 rfl,
   (reveal_check_order 8 1 [] 0 [] ws2).2.1 wRevealedGame rfl (by decide),
   (reveal_check_order 7 1 [] 0 [] ws2).2.2.1 wRevealedGame rfl rfl rfl,
   (reveal_check_order 7 1 [] 0 [] ws1).2.2.2 (by decide)⟩

end TruthGame
